import Mathlib

/-!
Verification of the enrichment-job pipeline of the-aiviary.

We shallowly embed the Python sources of the enrichment worker
(content-nest/app/enrichment-worker/main.py, lib/embedder.py,
lib/audio_extractor.py and the transcriber of
aiviary-tree/app/nests/meta/enrichment-worker/lib/transcriber.py)
as executable Lean definitions and prove the specified properties.

Modelling conventions:
* Python strings are lists of Unicode scalar values (`List Nat`);
  bytes are `List Nat` of values < 256.
* Fallible Python code returns `Except String _`; an exception is the
  `.error` constructor carrying (an abstraction of) the message.
* External collaborators (HTTP download, Vertex AI, Speech-to-Text,
  PostgreSQL) are oracles: record fields supplying their outcome.
-/

namespace Aiviary

/-! ## UTF-8 model (embedder.py, truncate_to_bytes)

Python's `str.encode('utf-8')` and `bytes.decode('utf-8', errors='ignore')`
are library functions; we model them on byte lists.  `utf8DecodeIgnore`
skips, byte by byte, anything that does not start a complete valid
sequence, which coincides with CPython's ignore-handler on the inputs the
source ever produces (prefixes of valid UTF-8). -/

/-- Is the byte a UTF-8 continuation byte (0x80..0xBF)? -/
def isCont (b : Nat) : Bool := 128 ≤ b && b < 192

/-- A Unicode scalar value: in range and not a surrogate.  Python's
`str.encode('utf-8')` raises on lone surrogates, so text handled by the
worker consists of such scalar values. -/
def ValidCodepoint (c : Nat) : Prop := c < 1114112 ∧ ¬(55296 ≤ c ∧ c < 57344)

instance (c : Nat) : Decidable (ValidCodepoint c) := by
  unfold ValidCodepoint; infer_instance

/-- UTF-8 encoding of a single scalar value (1 to 4 bytes). -/
def utf8EncodeChar (c : Nat) : List Nat :=
  if c < 128 then [c]
  else if c < 2048 then [192 + c / 64, 128 + c % 64]
  else if c < 65536 then [224 + c / 4096, 128 + c / 64 % 64, 128 + c % 64]
  else [240 + c / 262144, 128 + c / 4096 % 64, 128 + c / 64 % 64, 128 + c % 64]

/-- UTF-8 encoding of a whole text (`text.encode('utf-8')`). -/
def utf8Encode (s : List Nat) : List Nat := (s.map utf8EncodeChar).flatten

/-- Try to decode one UTF-8 sequence whose lead byte is `b` and whose
following bytes are `bs`; on success return the scalar value and the
bytes remaining after the sequence. -/
def decodeOne (b : Nat) (bs : List Nat) : Option (Nat × List Nat) :=
  if b < 128 then some (b, bs)
  else if b < 192 then none
  else if b < 224 then
    match bs with
    | c1 :: rest =>
      if isCont c1 then some ((b - 192) * 64 + (c1 - 128), rest) else none
    | [] => none
  else if b < 240 then
    match bs with
    | c1 :: c2 :: rest =>
      if isCont c1 && isCont c2 then
        some ((b - 224) * 4096 + (c1 - 128) * 64 + (c2 - 128), rest)
      else none
    | _ => none
  else if b < 248 then
    match bs with
    | c1 :: c2 :: c3 :: rest =>
      if isCont c1 && isCont c2 && isCont c3 then
        some ((b - 240) * 262144 + (c1 - 128) * 4096 + (c2 - 128) * 64 + (c3 - 128), rest)
      else none
    | _ => none
  else none

/-- Decoding with the 'ignore' error handler: a byte that does not begin a
complete, well-formed sequence is skipped and decoding resumes at the
next byte. -/
def utf8DecodeIgnore : List Nat → List Nat
  | [] => []
  | b :: bs =>
    match h : decodeOne b bs with
    | some (c, rest) => c :: utf8DecodeIgnore rest
    | none => utf8DecodeIgnore bs
termination_by l => l.length
decreasing_by
  · have hlen : rest.length ≤ bs.length := by
      unfold decodeOne at h
      repeat' split at h
      all_goals simp_all
      all_goals omega
    simp only [List.length_cons]
    omega
  · simp

/-- Shallow embedding of `truncate_to_bytes(text, max_bytes)` from
embedder.py: return text unchanged when its UTF-8 encoding fits, else
take the first `maxBytes` bytes and decode them ignoring the cut tail. -/
def truncate_to_bytes (text : List Nat) (maxBytes : Nat) : List Nat :=
  if text = [] then []
  else
    let encoded := utf8Encode text
    if encoded.length ≤ maxBytes then text
    else utf8DecodeIgnore (encoded.take maxBytes)

/-! ## Embedding generation (embedder.py, generate_multimodal_embedding)

The HTTP download and the Vertex AI call are external collaborators,
modelled as oracle fields of `EmbedEnv`.  `download` stands for
`download_media` (which raises on HTTP errors, on the 10 MB size ceiling
and on a non-image/video MIME type — all collapsed into its `.error`
case, with the wrapped message the source builds).  `getEmbeddings`
stands for the `embedding_model.get_embeddings` call; its `.ok` value is
the response's `image_embedding` field, which may be absent (`none`).  -/

/-- Result of `download_media`: the validated buffer and MIME type. -/
structure MediaData where
  buffer : List Nat
  mimeType : String
deriving Repr, DecidableEq

/-- Oracles for the external collaborators of
`generate_multimodal_embedding`. -/
structure EmbedEnv where
  download : List Nat → Except String MediaData
  getEmbeddings : MediaData → Option (List Nat) → Except String (Option (List Rat))

/-- The part of `generate_multimodal_embedding` after the empty-input
guard: download the media, truncate the text to 1024 bytes, call the
embedding service, and validate the response's dimensionality.  A `none`
or empty `image_embedding`, or one whose length differs from 1408,
raises (in CPython a `none` vector even makes the message formatting
itself raise; either way an exception propagates, re-wrapped by the
enclosing handler). -/
def embedAfterEmptyCheck (text mediaUrl : List Nat) (env : EmbedEnv) :
    Except String (List Rat) :=
  match env.download mediaUrl with
  | .error e => .error e
  | .ok media =>
    let truncatedText := truncate_to_bytes text 1024
    match env.getEmbeddings media
        (if truncatedText = [] then none else some truncatedText) with
    | .error e => .error ("Failed to generate multimodal embedding: " ++ e)
    | .ok none =>
      .error "Failed to generate multimodal embedding: invalid embedding received"
    | .ok (some v) =>
      if v = [] ∨ v.length ≠ 1408 then
        .error "Failed to generate multimodal embedding: invalid embedding received"
      else .ok v

/-- Shallow embedding of `generate_multimodal_embedding(text, media_url)`
from embedder.py. -/
def generate_multimodal_embedding (text mediaUrl : List Nat) (env : EmbedEnv) :
    Except String (List Rat) :=
  if text = [] ∧ mediaUrl = [] then
    .error "Either text or a media URL must be provided to generate an embedding."
  else embedAfterEmptyCheck text mediaUrl env

/-! ## Transcription (transcriber.py)

Transcripts are lists of codepoints.  `transcribe_audio` is the oracle
boundary: the per-chunk argument `tr` of `transcribe_long_audio` models
the `transcribe_audio(chunk_path, language)` call, succeeding with the
chunk's transcript or raising. -/

/-- Whitespace for Python's `str.strip()` (ASCII subset; the source only
ever strips around space-joined service transcripts). -/
def isPySpace (c : Nat) : Bool := c = 9 || c = 10 || c = 11 || c = 12 || c = 13 || c = 32

/-- Python `text.strip()`: drop leading and trailing whitespace. -/
def pyStrip (s : List Nat) : List Nat :=
  ((s.dropWhile isPySpace).reverse.dropWhile isPySpace).reverse

/-- Python `' '.join(parts)`. -/
def spaceJoin : List (List Nat) → List Nat
  | [] => []
  | [t] => t
  | t :: ts => t ++ 32 :: spaceJoin ts

/-- The accumulation loop of `transcribe_long_audio`: transcribe each
chunk, appending its transcript on success and skipping the chunk when
the call raises. -/
def collectTranscripts (tr : Nat → Except String (List Nat)) :
    List Nat → List (List Nat)
  | [] => []
  | c :: cs =>
    match tr c with
    | .ok t => t :: collectTranscripts tr cs
    | .error _ => collectTranscripts tr cs

/-- Shallow embedding of `transcribe_long_audio(chunk_paths, language)`:
space-join the transcripts of the chunks that succeeded, in order, and
strip the result. -/
def transcribe_long_audio (chunkPaths : List Nat)
    (tr : Nat → Except String (List Nat)) : List Nat :=
  pyStrip (spaceJoin (collectTranscripts tr chunkPaths))

/-! ## Audio chunking (audio_extractor.py, split_audio_into_chunks)

Chunk arithmetic: the source computes
`num_chunks = int(duration / chunk_duration) + (1 if duration % chunk_duration > 0 else 0)`
on floats and cuts chunk `i` with ffmpeg at `ss = i * chunk_duration`,
`t = chunk_duration`.  Durations are modelled as rationals; `int()` on a
nonnegative float is the floor and float `%` is
`d - c * floor(d / c)`.  The pair produced for chunk `i` is its start
offset and its actual length `min c (d - i * c)` (ffmpeg's behaviour for
a trim reaching past the end of the input). -/

/-- The chunk count computed by `split_audio_into_chunks`. -/
def numChunks (d c : ℚ) : ℤ :=
  ⌊d / c⌋ + (if d - c * ⌊d / c⌋ > 0 then 1 else 0)

/-- The chunks (start offset, length) produced by
`split_audio_into_chunks` on audio of duration `d` with chunk duration
`c`. -/
def split_audio_into_chunks (d c : ℚ) : List (ℚ × ℚ) :=
  (List.range (numChunks d c).toNat).map fun (i : Nat) =>
    ((i : ℚ) * c, min c (d - (i : ℚ) * c))

/-! ## Job queue (main.py)

Jobs live in the `enrichment_jobs` table, modelled as a list of rows.
Timestamps are integers counting minutes (the granularity of the backoff
schedule); `NOW()` is passed in as `now`.  `get_next_job`'s SQL claims
one row in a single atomic statement

  UPDATE ... SET status = processing, started_at = NOW()
  WHERE id = (SELECT id FROM enrichment_jobs
              WHERE status = pending AND attempts < max
              ORDER BY created_at ASC FOR UPDATE SKIP LOCKED LIMIT 1)
  RETURNING ...

so the serial semantics is `get_next_job` below, and for the concurrent
semantics the row locks taken by in-flight statements are made explicit
in `QueueState` (`ClaimStep.select` acquires the lock skipping rows
locked by others — SKIP LOCKED — and `ClaimStep.commit` publishes the
update and releases the lock). -/

inductive JobStatus where
  | pending
  | processing
  | completed
  | failed
deriving DecidableEq, Repr

/-- A row of `enrichment_jobs` (fields the worker reads or writes). -/
structure EnrichmentJob where
  id : Nat
  contentId : Nat
  contentType : String
  attempts : Nat
  status : JobStatus
  createdAt : Int
  startedAt : Option Int
  completedAt : Option Int
  errorMessage : Option String
deriving DecidableEq, Repr

/-- Worker configuration: MAX_RETRY_ATTEMPTS and RETRY_BACKOFF_MINUTES
(defaults 3 and [5, 10, 20]). -/
structure WorkerConfig where
  maxRetryAttempts : Nat
  retryBackoffMinutes : List Int
deriving DecidableEq, Repr

/-- The SQL eligibility filter: status = pending AND attempts < max. -/
def jobEligible (cfg : WorkerConfig) (j : EnrichmentJob) : Bool :=
  j.status == .pending && j.attempts < cfg.maxRetryAttempts

/-- Eligible and not row-locked by an in-flight concurrent claimer
(FOR UPDATE SKIP LOCKED). -/
def jobClaimable (cfg : WorkerConfig) (lockedIds : List Nat) (j : EnrichmentJob) : Bool :=
  jobEligible cfg j && !(lockedIds.contains j.id)

/-- The inner SELECT: among claimable rows, the one with the least
created_at (ORDER BY created_at ASC LIMIT 1). -/
def selectNextJob (cfg : WorkerConfig) (lockedIds : List Nat)
    (jobs : List EnrichmentJob) : Option EnrichmentJob :=
  (jobs.filter (jobClaimable cfg lockedIds)).argmin EnrichmentJob.createdAt

/-- An UPDATE ... WHERE id = jid. -/
def updateJob (jobs : List EnrichmentJob) (jid : Nat)
    (f : EnrichmentJob → EnrichmentJob) : List EnrichmentJob :=
  jobs.map fun j => if j.id = jid then f j else j

/-- The SET clause of the claiming UPDATE. -/
def setProcessing (t : Int) (j : EnrichmentJob) : EnrichmentJob :=
  { j with status := .processing, startedAt := some t }

/-- Shallow embedding of `get_next_job()` (serial semantics): claim the
oldest eligible pending row, transition it to processing, and return it;
return `none` and leave the table unchanged when no row is eligible. -/
def get_next_job (cfg : WorkerConfig) (now : Int) (jobs : List EnrichmentJob) :
    Option EnrichmentJob × List EnrichmentJob :=
  match selectNextJob cfg [] jobs with
  | none => (none, jobs)
  | some j => (some (setProcessing now j), updateJob jobs j.id (setProcessing now))

/-- Shallow embedding of `mark_job_failed(job_id, error_message,
current_attempts)`: terminal failure once attempts are exhausted,
otherwise re-pend with `created_at = NOW() + backoff minutes` where the
backoff is drawn from the schedule (last entry reused beyond its
length; the source's `[-1]` on an empty schedule would raise, so the
model is faithful for a nonempty schedule). -/
def mark_job_failed (cfg : WorkerConfig) (jobId : Nat) (errorMessage : String)
    (currentAttempts : Nat) (now : Int) (jobs : List EnrichmentJob) :
    List EnrichmentJob :=
  let nextAttempt := currentAttempts + 1
  if cfg.maxRetryAttempts ≤ nextAttempt then
    updateJob jobs jobId fun j =>
      { j with status := .failed, errorMessage := some errorMessage,
               attempts := nextAttempt }
  else
    let backoffMinutes :=
      if nextAttempt - 1 < cfg.retryBackoffMinutes.length then
        cfg.retryBackoffMinutes.getD (nextAttempt - 1) 0
      else cfg.retryBackoffMinutes.getLastD 0
    updateJob jobs jobId fun j =>
      { j with status := .pending, errorMessage := some errorMessage,
               attempts := nextAttempt, createdAt := now + backoffMinutes }

/-- Shallow embedding of `mark_job_completed(job_id)`. -/
def mark_job_completed (jobId : Nat) (now : Int) (jobs : List EnrichmentJob) :
    List EnrichmentJob :=
  updateJob jobs jobId fun j => { j with status := .completed, completedAt := some now }

/-- State of the table as seen by several concurrent claimers: the rows,
the row locks held by in-flight claiming statements (worker, job id),
and the log of claims already returned (worker, job id). -/
structure QueueState where
  jobs : List EnrichmentJob
  locks : List (Nat × Nat)
  claimed : List (Nat × Nat)
deriving DecidableEq, Repr

/-- Interleaved execution of `get_next_job` by concurrent workers.
`select` runs the inner SELECT ... FOR UPDATE SKIP LOCKED: it picks the
oldest eligible row not locked by anyone (a row already locked by a
concurrent claimer is skipped) and locks it.  `commit` completes that
worker's UPDATE at some time `t`: the row becomes processing, the lock
is released, and the row is returned to the worker (recorded in
`claimed`). -/
inductive ClaimStep (cfg : WorkerConfig) : QueueState → QueueState → Prop where
  | select (st : QueueState) (w : Nat) (j : EnrichmentJob) :
      (∀ p ∈ st.locks, p.1 ≠ w) →
      selectNextJob cfg (st.locks.map Prod.snd) st.jobs = some j →
      ClaimStep cfg st { st with locks := (w, j.id) :: st.locks }
  | commit (st : QueueState) (w jid : Nat) (t : Int) :
      (w, jid) ∈ st.locks →
      ClaimStep cfg st
        { jobs := updateJob st.jobs jid (setProcessing t),
          locks := st.locks.erase (w, jid),
          claimed := (w, jid) :: st.claimed }

/-- Queue well-formedness: distinct row ids; no row locked twice; locked
rows are pending in the table; rows already returned by a claim are
processing; no job returned twice. -/
def QueueInv (st : QueueState) : Prop :=
  (st.jobs.map EnrichmentJob.id).Nodup ∧
  (st.locks.map Prod.snd).Nodup ∧
  (∀ p ∈ st.locks, ∃ j ∈ st.jobs, j.id = p.2 ∧ j.status = JobStatus.pending) ∧
  (∀ p ∈ st.claimed, ∀ j ∈ st.jobs, j.id = p.2 → j.status = JobStatus.processing) ∧
  (st.claimed.map Prod.snd).Nodup

instance (st : QueueState) : Decidable (QueueInv st) := by
  unfold QueueInv; infer_instance

/-! ## Job processing (main.py process_job, audio_extractor.py)

World model for one `process_job` run: local temporary files are a list
of path names (paths drawn from a fresh counter, as `tempfile.mkstemp`
guarantees fresh names), and the database writes are logged.  External
outcomes (content fetch, HTTP download, ffmpeg, Speech-to-Text, Vertex
AI, each store round trip) are oracle fields of `JobEnv`. -/

/-- A child row of `instagram_post_children`, in `ORDER BY id` order
within `ContentPost.children`.  SQL NULL text columns are `none`. -/
structure PostChild where
  mediaUrl : Option String
  thumbnailUrl : Option String
  mediaType : String
deriving DecidableEq, Repr

/-- The content row consumed by the pipeline. -/
structure ContentPost where
  id : Nat
  caption : Option (List Nat)
  mediaType : String
  mediaUrl : Option String
  thumbnailUrl : Option String
  children : List PostChild
deriving DecidableEq, Repr

/-- Python truthiness of a nullable string: None and the empty string
are falsy. -/
def pyTruthyStr : Option String → Bool
  | none => false
  | some s => !(s == "")

/-- Shallow embedding of `get_primary_media_url(post, client_id)`.  The
CAROUSEL_ALBUM arm embeds the source line
`return child[2] == 'VIDEO' and child[1] or child[0]`:
Python's `A and B or C` yields `B` only when both `A` and `B` are
truthy, and `C` otherwise. -/
def get_primary_media_url (post : ContentPost) : Option String :=
  if post.mediaType = "IMAGE" then post.mediaUrl
  else if post.mediaType = "VIDEO" then post.thumbnailUrl
  else if post.mediaType = "CAROUSEL_ALBUM" then
    match post.children.head? with
    | some child =>
      if child.mediaType = "VIDEO" && pyTruthyStr child.thumbnailUrl then
        child.thumbnailUrl
      else child.mediaUrl
    | none => none
  else none

/-- Outcome of `extract_audio_from_video` (via its ffmpeg probe). -/
inductive ExtractOutcome where
  | ok (duration : ℚ)
  | noAudio
  | err (msg : String)
deriving DecidableEq, Repr

/-- Outcome of the ffmpeg loop inside `split_audio_into_chunks`: either
all `n` chunk files are produced, or ffmpeg fails after `created` chunks
were already written (the handler then removes them and re-raises). -/
inductive SplitOutcome where
  | ok (n : Nat)
  | err (created : Nat) (msg : String)
deriving DecidableEq, Repr

/-- Oracles for one `process_job` run. -/
structure JobEnv where
  now : Int
  fetchContent : Except String ContentPost
  downloadErr : Option String
  extract : ExtractOutcome
  transcribeShort : Except String (List Nat)
  split : SplitOutcome
  transcribeChunk : Nat → Except String (List Nat)
  embedOutcome : Except String (List Rat)
  storeTranscriptErr : Option String
  storeEmbeddingErr : Option String
  markCompletedErr : Option String
  markFailedErr : Option String

/-- The world a job runs against: local temp files, the fresh-name
counter, the job table, and the result columns written back. -/
structure WorldState where
  files : List Nat
  nextTemp : Nat
  jobs : List EnrichmentJob
  embeddings : List (Nat × List Rat)
  transcripts : List (Nat × Option (List Nat) × Bool)
deriving DecidableEq, Repr

/-- tempfile.mkstemp: create a fresh local file and return its path. -/
def mkTemp (w : WorldState) : WorldState × Nat :=
  ({ w with files := w.files ++ [w.nextTemp], nextTemp := w.nextTemp + 1 }, w.nextTemp)

/-- os.remove (as used here: no-op when the file is already gone). -/
def rmTemp (w : WorldState) (p : Nat) : WorldState :=
  { w with files := w.files.erase p }

/-- Shallow embedding of `cleanup_temp_files(file_paths)`: best-effort
deletion of each listed path. -/
def cleanup_temp_files (w : WorldState) (paths : List Nat) : WorldState :=
  paths.foldl rmTemp w

/-- Result of `process_video_for_transcription`. -/
structure VideoData where
  videoPath : Nat
  audioPath : Option Nat
  hasAudio : Bool
  durationSeconds : ℚ
deriving DecidableEq, Repr

/-- Shallow embedding of `process_video_for_transcription(video_url)`:
make a video temp file, download into it, make an audio temp file and
extract; on NoAudioTrackError remove the audio file and return a
silent-video result; on any other error remove both temp files and
re-raise. -/
def process_video_for_transcription (env : JobEnv) (w : WorldState) :
    WorldState × Except String VideoData :=
  let (w1, vp) := mkTemp w
  match env.downloadErr with
  | some e => (rmTemp w1 vp, .error ("Failed to process video: " ++ e))
  | none =>
    let (w2, ap) := mkTemp w1
    match env.extract with
    | .err e => (rmTemp (rmTemp w2 vp) ap, .error ("Failed to process video: " ++ e))
    | .noAudio => (rmTemp w2 ap, .ok ⟨vp, none, false, 0⟩)
    | .ok dur => (w2, .ok ⟨vp, some ap, true, dur⟩)

/-- File-system effect of `split_audio_into_chunks(audio_path)`: on
success `n` chunk files are created and returned; on an ffmpeg error the
`created` chunks made so far are removed again and the error re-raised
(so no chunk file survives the failing call). -/
def split_audio_into_chunks_fs (env : JobEnv) (w : WorldState) :
    WorldState × Except String (List Nat) :=
  match env.split with
  | .ok n =>
    let paths := (List.range n).map (w.nextTemp + ·)
    ({ w with files := w.files ++ paths, nextTemp := w.nextTemp + n }, .ok paths)
  | .err created msg =>
    let paths := (List.range created).map (w.nextTemp + ·)
    let w1 := { w with files := w.files ++ paths, nextTemp := w.nextTemp + created }
    (cleanup_temp_files w1 paths, .error ("Failed to split audio into chunks: " ++ msg))

/-- Shallow embedding of `store_transcript`: log the write, or raise. -/
def store_transcript (env : JobEnv) (contentId : Nat) (t : Option (List Nat))
    (hasAudio : Bool) (w : WorldState) : WorldState × Except String Unit :=
  match env.storeTranscriptErr with
  | some e => (w, .error e)
  | none => ({ w with transcripts := (contentId, t, hasAudio) :: w.transcripts }, .ok ())

/-- Shallow embedding of `store_embedding`: log the write, or raise. -/
def store_embedding (env : JobEnv) (contentId : Nat) (v : List Rat)
    (w : WorldState) : WorldState × Except String Unit :=
  match env.storeEmbeddingErr with
  | some e => (w, .error e)
  | none => ({ w with embeddings := (contentId, v) :: w.embeddings }, .ok ())

/-- `mark_job_completed` as a world operation (the UPDATE may raise). -/
def mark_job_completed_op (env : JobEnv) (jobId : Nat) (w : WorldState) :
    WorldState × Except String Unit :=
  match env.markCompletedErr with
  | some e => (w, .error e)
  | none => ({ w with jobs := mark_job_completed jobId env.now w.jobs }, .ok ())

/-- The tail shared by all media branches: generate the embedding, store
it, and mark the job completed. -/
def embedAndComplete (env : JobEnv) (job : EnrichmentJob) (w : WorldState) :
    WorldState × Except String Unit :=
  match env.embedOutcome with
  | .error e => (w, .error e)
  | .ok v =>
    match store_embedding env job.contentId v w with
    | (w1, .error e) => (w1, .error e)
    | (w1, .ok _) => mark_job_completed_op env job.id w1

/-- Step 2 of the VIDEO branch of `process_job`: the inner try block
around transcription.  Short audio is transcribed in one shot; long
audio is chunked (`chunk_paths` is assigned only when the split
succeeds) and transcribed chunk-wise; any exception is caught and
leaves the transcript `None`. -/
def transcriptionStep (env : JobEnv) (vd : VideoData) (w1 : WorldState) :
    WorldState × List Nat × Option (List Nat) :=
  if vd.hasAudio then
    if vd.durationSeconds ≤ 60 then
      match env.transcribeShort with
      | .ok t => (w1, ([] : List Nat), some t)
      | .error _ => (w1, [], none)
    else
      match split_audio_into_chunks_fs env w1 with
      | (w2, .ok paths) =>
        (w2, paths, some (transcribe_long_audio paths env.transcribeChunk))
      | (w2, .error _) => (w2, [], none)
  else (w1, [], none)

/-- The body of `process_job`'s try block.  Returns the final world, the
temp paths held by the function's `video_path` / `audio_path` /
`chunk_paths` locals (exactly what the finally block will clean up), and
the control outcome of the block. -/
def processJobBody (env : JobEnv) (job : EnrichmentJob) (w0 : WorldState) :
    (WorldState × Option Nat × Option Nat × List Nat) × Except String Unit :=
  match env.fetchContent with
  | .error e => ((w0, none, none, []), .error e)
  | .ok post =>
    if post.mediaType = "VIDEO" then
      match process_video_for_transcription env w0 with
      | (w1, .error e) => ((w1, none, none, []), .error e)
      | (w1, .ok vd) =>
        let (w2, chunkPaths, transcript) := transcriptionStep env vd w1
        match store_transcript env job.contentId transcript vd.hasAudio w2 with
        | (w3, .error e) => ((w3, some vd.videoPath, vd.audioPath, chunkPaths), .error e)
        | (w3, .ok _) =>
          match embedAndComplete env job w3 with
          | (w4, r) => ((w4, some vd.videoPath, vd.audioPath, chunkPaths), r)
    else if post.mediaType = "IMAGE" then
      match embedAndComplete env job w0 with
      | (w1, r) => ((w1, none, none, []), r)
    else if post.mediaType = "CAROUSEL_ALBUM" then
      if pyTruthyStr (get_primary_media_url post) = false then
        match mark_job_completed_op env job.id w0 with
        | (w1, r) => ((w1, none, none, []), r)
      else
        match embedAndComplete env job w0 with
        | (w1, r) => ((w1, none, none, []), r)
    else ((w0, none, none, []), .error ("Unsupported media type: " ++ post.mediaType))

/-- Freshness of the temp-name counter: every existing local file's name
is below the counter (mkstemp never reuses a live name). -/
def WorldInv (w : WorldState) : Prop := ∀ p ∈ w.files, p < w.nextTemp

instance (w : WorldState) : Decidable (WorldInv w) := by
  unfold WorldInv; infer_instance

/-- Shallow embedding of `process_job(job)`: run the body; on an
exception call `mark_job_failed` (which can itself raise, in which case
that error propagates); finally, unconditionally clean up every tracked
temp file. -/
def process_job (cfg : WorkerConfig) (env : JobEnv) (job : EnrichmentJob)
    (w0 : WorldState) : WorldState × Except String Unit :=
  match processJobBody env job w0 with
  | ((w1, vp, ap, chunks), res) =>
    let (w2, res2) :=
      match res with
      | .ok _ => (w1, Except.ok ())
      | .error e =>
        match env.markFailedErr with
        | some e2 => (w1, Except.error e2)
        | none =>
          ({ w1 with jobs := mark_job_failed cfg job.id e job.attempts env.now w1.jobs },
           Except.ok ())
    (cleanup_temp_files w2 (vp.toList ++ ap.toList ++ chunks), res2)

/-! ## Theorems -/

set_option maxRecDepth 8000

/-! ### UTF-8 helper lemmas -/

theorem isCont_true {x : Nat} (h1 : 128 ≤ x) (h2 : x < 192) : isCont x = true := by
  simp only [isCont, Bool.and_eq_true, decide_eq_true_eq]; omega

theorem utf8DecodeIgnore_nil : utf8DecodeIgnore [] = [] := by
  rw [utf8DecodeIgnore]

theorem utf8DecodeIgnore_cons_some {b : Nat} {bs : List Nat} {c : Nat} {rest : List Nat}
    (h : decodeOne b bs = some (c, rest)) :
    utf8DecodeIgnore (b :: bs) = c :: utf8DecodeIgnore rest := by
  rw [utf8DecodeIgnore]
  split <;> simp_all

theorem utf8DecodeIgnore_cons_none {b : Nat} {bs : List Nat}
    (h : decodeOne b bs = none) :
    utf8DecodeIgnore (b :: bs) = utf8DecodeIgnore bs := by
  rw [utf8DecodeIgnore]
  split <;> simp_all

theorem decodeOne_one {b : Nat} (h : b < 128) (bs : List Nat) :
    decodeOne b bs = some (b, bs) := by
  rw [decodeOne.eq_def, if_pos h]

theorem decodeOne_two {b c1 : Nat} (hb1 : 192 ≤ b) (hb2 : b < 224)
    (hc : isCont c1 = true) (bs : List Nat) :
    decodeOne b (c1 :: bs) = some ((b - 192) * 64 + (c1 - 128), bs) := by
  rw [decodeOne.eq_def, if_neg (by omega), if_neg (by omega), if_pos (by omega)]
  simp [hc]

theorem decodeOne_three {b c1 c2 : Nat} (hb1 : 224 ≤ b) (hb2 : b < 240)
    (hc1 : isCont c1 = true) (hc2 : isCont c2 = true) (bs : List Nat) :
    decodeOne b (c1 :: c2 :: bs)
      = some ((b - 224) * 4096 + (c1 - 128) * 64 + (c2 - 128), bs) := by
  rw [decodeOne.eq_def, if_neg (by omega), if_neg (by omega), if_neg (by omega),
    if_pos (by omega)]
  simp [hc1, hc2]

theorem decodeOne_four {b c1 c2 c3 : Nat} (hb1 : 240 ≤ b) (hb2 : b < 248)
    (hc1 : isCont c1 = true) (hc2 : isCont c2 = true) (hc3 : isCont c3 = true)
    (bs : List Nat) :
    decodeOne b (c1 :: c2 :: c3 :: bs)
      = some ((b - 240) * 262144 + (c1 - 128) * 4096 + (c2 - 128) * 64 + (c3 - 128), bs) := by
  rw [decodeOne.eq_def, if_neg (by omega), if_neg (by omega), if_neg (by omega),
    if_neg (by omega), if_pos (by omega)]
  simp [hc1, hc2, hc3]

theorem utf8DecodeIgnore_encodeChar (c : Nat) (h : ValidCodepoint c) (bs : List Nat) :
    utf8DecodeIgnore (utf8EncodeChar c ++ bs) = c :: utf8DecodeIgnore bs := by
  obtain ⟨hlt, _⟩ := h
  by_cases h1 : c < 128
  · rw [utf8EncodeChar, if_pos h1, List.cons_append, List.nil_append,
      utf8DecodeIgnore_cons_some (decodeOne_one h1 bs)]
  · by_cases h2 : c < 2048
    · rw [utf8EncodeChar, if_neg h1, if_pos h2, List.cons_append, List.cons_append,
        List.nil_append,
        utf8DecodeIgnore_cons_some
          (decodeOne_two (by omega) (by omega) (isCont_true (by omega) (by omega)) bs)]
      congr 1
      omega
    · by_cases h3 : c < 65536
      · rw [utf8EncodeChar, if_neg h1, if_neg h2, if_pos h3, List.cons_append,
          List.cons_append, List.cons_append, List.nil_append,
          utf8DecodeIgnore_cons_some
            (decodeOne_three (by omega) (by omega) (isCont_true (by omega) (by omega))
              (isCont_true (by omega) (by omega)) bs)]
        congr 1
        omega
      · rw [utf8EncodeChar, if_neg h1, if_neg h2, if_neg h3, List.cons_append,
          List.cons_append, List.cons_append, List.cons_append, List.nil_append,
          utf8DecodeIgnore_cons_some
            (decodeOne_four (by omega) (by omega) (isCont_true (by omega) (by omega))
              (isCont_true (by omega) (by omega)) (isCont_true (by omega) (by omega)) bs)]
        congr 1
        omega

theorem decodeOne_cont {b : Nat} (h : isCont b = true) (bs : List Nat) :
    decodeOne b bs = none := by
  simp only [isCont, Bool.and_eq_true, decide_eq_true_eq] at h
  rw [decodeOne.eq_def, if_neg (by omega), if_pos (by omega)]

theorem decodeOne_two_nil {b : Nat} (hb1 : 192 ≤ b) (hb2 : b < 224) :
    decodeOne b [] = none := by
  rw [decodeOne.eq_def, if_neg (by omega), if_neg (by omega), if_pos (by omega)]

theorem decodeOne_three_short {b : Nat} (hb1 : 224 ≤ b) (hb2 : b < 240)
    (bs : List Nat) (hlen : bs.length ≤ 1) : decodeOne b bs = none := by
  rw [decodeOne.eq_def, if_neg (by omega), if_neg (by omega), if_neg (by omega),
    if_pos (by omega)]
  match bs, hlen with
  | [], _ => rfl
  | [c1], _ => rfl

theorem decodeOne_four_short {b : Nat} (hb1 : 240 ≤ b) (hb2 : b < 248)
    (bs : List Nat) (hlen : bs.length ≤ 2) : decodeOne b bs = none := by
  rw [decodeOne.eq_def, if_neg (by omega), if_neg (by omega), if_neg (by omega),
    if_neg (by omega), if_pos (by omega)]
  match bs, hlen with
  | [], _ => rfl
  | [c1], _ => rfl
  | [c1, c2], _ => rfl

theorem utf8DecodeIgnore_encodeChar_take (c : Nat) (h : ValidCodepoint c) {B : Nat}
    (hB : B < (utf8EncodeChar c).length) :
    utf8DecodeIgnore ((utf8EncodeChar c).take B) = [] := by
  obtain ⟨hlt, _⟩ := h
  by_cases h1 : c < 128
  · rw [utf8EncodeChar, if_pos h1] at hB ⊢
    simp only [List.length_cons, List.length_nil] at hB
    interval_cases B
    simp [utf8DecodeIgnore_nil]
  · by_cases h2 : c < 2048
    · rw [utf8EncodeChar, if_neg h1, if_pos h2] at hB ⊢
      simp only [List.length_cons, List.length_nil] at hB
      interval_cases B
      · simp [utf8DecodeIgnore_nil]
      · simp only [List.take_succ_cons, List.take_zero]
        rw [utf8DecodeIgnore_cons_none (decodeOne_two_nil (by omega) (by omega)),
          utf8DecodeIgnore_nil]
    · by_cases h3 : c < 65536
      · rw [utf8EncodeChar, if_neg h1, if_neg h2, if_pos h3] at hB ⊢
        simp only [List.length_cons, List.length_nil] at hB
        interval_cases B
        · simp [utf8DecodeIgnore_nil]
        · simp only [List.take_succ_cons, List.take_zero]
          rw [utf8DecodeIgnore_cons_none (decodeOne_three_short (by omega) (by omega) _
            (by simp)), utf8DecodeIgnore_nil]
        · simp only [List.take_succ_cons, List.take_zero]
          rw [utf8DecodeIgnore_cons_none (decodeOne_three_short (by omega) (by omega) _
              (by simp)),
            utf8DecodeIgnore_cons_none (decodeOne_cont (isCont_true (by omega) (by omega)) _),
            utf8DecodeIgnore_nil]
      · rw [utf8EncodeChar, if_neg h1, if_neg h2, if_neg h3] at hB ⊢
        simp only [List.length_cons, List.length_nil] at hB
        interval_cases B
        · simp [utf8DecodeIgnore_nil]
        · simp only [List.take_succ_cons, List.take_zero]
          rw [utf8DecodeIgnore_cons_none (decodeOne_four_short (by omega) (by omega) _
            (by simp)), utf8DecodeIgnore_nil]
        · simp only [List.take_succ_cons, List.take_zero]
          rw [utf8DecodeIgnore_cons_none (decodeOne_four_short (by omega) (by omega) _
              (by simp)),
            utf8DecodeIgnore_cons_none (decodeOne_cont (isCont_true (by omega) (by omega)) _),
            utf8DecodeIgnore_nil]
        · simp only [List.take_succ_cons, List.take_zero]
          rw [utf8DecodeIgnore_cons_none (decodeOne_four_short (by omega) (by omega) _
              (by simp)),
            utf8DecodeIgnore_cons_none (decodeOne_cont (isCont_true (by omega) (by omega)) _),
            utf8DecodeIgnore_cons_none (decodeOne_cont (isCont_true (by omega) (by omega)) _),
            utf8DecodeIgnore_nil]

theorem utf8Encode_nil : utf8Encode [] = [] := rfl

theorem utf8Encode_cons (c : Nat) (rest : List Nat) :
    utf8Encode (c :: rest) = utf8EncodeChar c ++ utf8Encode rest := by
  simp [utf8Encode]

theorem utf8EncodeChar_length_pos (c : Nat) : 0 < (utf8EncodeChar c).length := by
  rw [utf8EncodeChar]
  repeat' split
  all_goals simp

theorem decode_take_encode (text : List Nat) (hv : ∀ c ∈ text, ValidCodepoint c)
    (B : Nat) :
    ∃ k, utf8DecodeIgnore ((utf8Encode text).take B) = text.take k ∧
      (utf8Encode (text.take k)).length ≤ B ∧
      (k < text.length → B < (utf8Encode (text.take (k + 1))).length) := by
  induction text generalizing B with
  | nil =>
    exact ⟨0, by simp [utf8Encode_nil, utf8DecodeIgnore_nil]⟩
  | cons c rest ih =>
    have hc : ValidCodepoint c := hv c (by simp)
    have hrest : ∀ x ∈ rest, ValidCodepoint x := fun x hx => hv x (by simp [hx])
    by_cases hn : (utf8EncodeChar c).length ≤ B
    · obtain ⟨k, h1, h2, h3⟩ := ih hrest (B - (utf8EncodeChar c).length)
      refine ⟨k + 1, ?_, ?_, ?_⟩
      · rw [utf8Encode_cons, List.take_append_eq_append_take,
          List.take_of_length_le hn, utf8DecodeIgnore_encodeChar c hc, h1,
          List.take_succ_cons]
      · rw [List.take_succ_cons, utf8Encode_cons, List.length_append]
        omega
      · intro hk
        rw [List.take_succ_cons, utf8Encode_cons, List.length_append]
        simp only [List.length_cons] at hk
        have := h3 (by omega)
        omega
    · refine ⟨0, ?_, by simp [utf8Encode_nil], ?_⟩
      · rw [utf8Encode_cons, List.take_append_eq_append_take,
          Nat.sub_eq_zero_of_le (by omega), List.take_zero, List.append_nil,
          utf8DecodeIgnore_encodeChar_take c hc (by omega), List.take_zero]
      · intro _
        rw [List.take_succ_cons, List.take_zero, utf8Encode_cons, utf8Encode_nil,
          List.append_nil]
        omega

/-! ### Claim C2 -/

/-- C2: for every text and byte budget B, `truncate_to_bytes` returns a
text whose UTF-8 encoding is at most B bytes; the result is a full
character prefix of the input — so it is valid UTF-8, no trailing
fragment of a multi-byte character is emitted, an incomplete tail is
dropped entirely, and the prefix kept is maximal within the budget; and
a text whose encoding already fits in B bytes is returned unchanged. -/
theorem truncate_to_bytes_spec (text : List Nat) (B : Nat)
    (hv : ∀ c ∈ text, ValidCodepoint c) :
    (utf8Encode (truncate_to_bytes text B)).length ≤ B ∧
    (∃ k, truncate_to_bytes text B = text.take k ∧
      (k < text.length → B < (utf8Encode (text.take (k + 1))).length)) ∧
    ((utf8Encode text).length ≤ B → truncate_to_bytes text B = text) := by
  by_cases h0 : text = []
  · subst h0
    simp [truncate_to_bytes, utf8Encode_nil]
  · by_cases hle : (utf8Encode text).length ≤ B
    · have hr : truncate_to_bytes text B = text := by
        rw [truncate_to_bytes, if_neg h0]
        simp only [if_pos hle]
      refine ⟨by rw [hr]; exact hle, ⟨text.length, ?_, ?_⟩, fun _ => hr⟩
      · rw [hr, List.take_length]
      · omega
    · have hr : truncate_to_bytes text B
          = utf8DecodeIgnore ((utf8Encode text).take B) := by
        rw [truncate_to_bytes, if_neg h0]
        simp only [if_neg hle]
      obtain ⟨k, h1, h2, h3⟩ := decode_take_encode text hv B
      refine ⟨?_, ⟨k, by rw [hr, h1], fun hk => h3 hk⟩, fun h => absurd h hle⟩
      rw [hr, h1]
      exact h2

/-- Witness for C2 at text = codepoints [65, 233, 128512] (UTF-8 lengths
1, 2, 4) and budget 5: the truncation drops the whole emoji whose
encoding would be cut. -/
theorem truncate_to_bytes_spec_witness :
    (utf8Encode (truncate_to_bytes [65, 233, 128512] 5)).length ≤ 5 ∧
    (∃ k, truncate_to_bytes [65, 233, 128512] 5 = ([65, 233, 128512] : List Nat).take k ∧
      (k < ([65, 233, 128512] : List Nat).length →
        5 < (utf8Encode (([65, 233, 128512] : List Nat).take (k + 1))).length)) ∧
    ((utf8Encode [65, 233, 128512]).length ≤ 5 →
      truncate_to_bytes [65, 233, 128512] 5 = [65, 233, 128512]) :=
  truncate_to_bytes_spec [65, 233, 128512] 5 (by decide)

/-! ### Claims C1 and C10 -/

/-- C1: whenever `generate_multimodal_embedding` returns a vector (rather
than raising), that vector's length is exactly 1408; a service response
of any other length (or a missing or empty vector) makes the call raise,
so such a vector is never returned to the caller. -/
theorem generate_multimodal_embedding_dim (text mediaUrl : List Nat) (env : EmbedEnv)
    (v : List Rat) (h : generate_multimodal_embedding text mediaUrl env = .ok v) :
    v.length = 1408 := by
  by_cases hempty : text = [] ∧ mediaUrl = []
  · rw [generate_multimodal_embedding, if_pos hempty] at h
    exact absurd h (by simp)
  · rw [generate_multimodal_embedding, if_neg hempty, embedAfterEmptyCheck] at h
    rcases hd : env.download mediaUrl with e | media
    · rw [hd] at h
      exact absurd h (by simp)
    · rw [hd] at h
      dsimp only at h
      rcases hg : env.getEmbeddings media
          (if truncate_to_bytes text 1024 = [] then none
           else some (truncate_to_bytes text 1024)) with e | r
      · rw [hg] at h
        exact absurd h (by simp)
      · rw [hg] at h
        rcases r with _ | v'
        · exact absurd h (by simp)
        · dsimp only at h
          split at h
          · exact absurd h (by simp)
          · rename_i hcond
            push_neg at hcond
            obtain rfl : v' = v := by injection h
            exact hcond.2

/-- Environment for the C1 witness: the service answers with a
1408-dimensional vector. -/
def c1Env : EmbedEnv where
  download := fun _ => .ok ⟨[255, 216], "image/jpeg"⟩
  getEmbeddings := fun _ _ => .ok (some (List.replicate 1408 (0 : Rat)))

set_option maxRecDepth 400000 in
/-- Witness for C1: a concrete successful call returns a vector of length
exactly 1408. -/
theorem generate_multimodal_embedding_dim_witness :
    generate_multimodal_embedding [104, 105] [104] c1Env
        = .ok (List.replicate 1408 (0 : Rat)) ∧
    (List.replicate 1408 (0 : Rat)).length = 1408 :=
  ⟨by rfl, generate_multimodal_embedding_dim [104, 105] [104] c1Env _ (by rfl)⟩

/-- C10: with both the text and the media URL empty, the function raises
the fixed guard error for every environment — before any download or
service call; with at least one of them non-empty it proceeds to the
download step (its result is that of the post-guard body, and a download
failure surfaces directly). -/
theorem generate_multimodal_embedding_empty_guard (text mediaUrl : List Nat)
    (env : EmbedEnv) :
    (text = [] ∧ mediaUrl = [] →
      generate_multimodal_embedding text mediaUrl env =
        .error "Either text or a media URL must be provided to generate an embedding.") ∧
    (¬(text = [] ∧ mediaUrl = []) →
      generate_multimodal_embedding text mediaUrl env
        = embedAfterEmptyCheck text mediaUrl env ∧
      ∀ e, env.download mediaUrl = .error e →
        generate_multimodal_embedding text mediaUrl env = .error e) := by
  constructor
  · intro h
    rw [generate_multimodal_embedding, if_pos h]
  · intro h
    rw [generate_multimodal_embedding, if_neg h]
    refine ⟨rfl, fun e he => ?_⟩
    rw [embedAfterEmptyCheck, he]

/-- Environment for the C10 witness: the download always fails, making
it observable that the download step was reached. -/
def c10Env : EmbedEnv where
  download := fun _ => .error "Failed to download or validate media: connection refused"
  getEmbeddings := fun _ _ => .ok none

/-- Witness for C10: empty text and URL raise the guard error; non-empty
text with an empty URL reaches the download step (whose failure is
returned). -/
theorem generate_multimodal_embedding_empty_guard_witness :
    generate_multimodal_embedding [] [] c10Env =
      .error "Either text or a media URL must be provided to generate an embedding." ∧
    generate_multimodal_embedding [104] [] c10Env =
      .error "Failed to download or validate media: connection refused" :=
  ⟨(generate_multimodal_embedding_empty_guard [] [] c10Env).1 ⟨rfl, rfl⟩,
   ((generate_multimodal_embedding_empty_guard [104] [] c10Env).2 (by simp)).2 _ rfl⟩

/-! ### Claim C9 -/

theorem numChunks_eq_ceil (d c : ℚ) (hc : 0 < c) : numChunks d c = ⌈d / c⌉ := by
  have h2 : c * (d / c) = d := by field_simp
  have hkey : d - c * ⌊d / c⌋ = c * Int.fract (d / c) := by
    rw [Int.fract, mul_sub, h2]
  by_cases hfr : Int.fract (d / c) = 0
  · have hfl : ((⌊d / c⌋ : ℤ) : ℚ) = d / c := by
      have := Int.fract_add_floor (d / c)
      rw [hfr] at this
      linarith
    rw [numChunks, if_neg (by rw [hkey, hfr]; simp)]
    rw [show ⌈d / c⌉ = ⌊d / c⌋ from by rw [← hfl, Int.ceil_intCast, Int.floor_intCast]]
    simp
  · have hpos : 0 < Int.fract (d / c) :=
      lt_of_le_of_ne (Int.fract_nonneg _) (Ne.symm hfr)
    rw [numChunks, if_pos (by rw [hkey]; positivity)]
    have hup : ⌈d / c⌉ ≤ ⌊d / c⌋ + 1 := by
      apply Int.ceil_le.mpr
      push_cast
      have h3 := Int.fract_lt_one (d / c)
      have h4 := Int.fract_add_floor (d / c)
      linarith
    have hlo : ⌊d / c⌋ < ⌈d / c⌉ := by
      apply Int.lt_ceil.mpr
      rw [Int.fract] at hpos
      linarith
    omega

/-- C9: on audio of positive duration d with positive chunk duration c,
`split_audio_into_chunks` produces exactly ceil(d / c) chunks; chunk i
starts at offset i * c and lasts min c (d - i * c) seconds, which is
positive and at most c, and every chunk except possibly the last lasts
exactly c. -/
theorem split_audio_into_chunks_spec (d c : ℚ) (hd : 0 < d) (hc : 0 < c) :
    (split_audio_into_chunks d c).length = (⌈d / c⌉).toNat ∧
    ∀ i (hi : i < (split_audio_into_chunks d c).length),
      (split_audio_into_chunks d c).get ⟨i, hi⟩
          = ((i : ℚ) * c, min c (d - (i : ℚ) * c)) ∧
      min c (d - (i : ℚ) * c) ≤ c ∧
      0 < min c (d - (i : ℚ) * c) ∧
      (i + 1 < (split_audio_into_chunks d c).length → min c (d - (i : ℚ) * c) = c) := by
  have hlen : (split_audio_into_chunks d c).length = (⌈d / c⌉).toNat := by
    rw [split_audio_into_chunks, List.length_map, List.length_range,
      numChunks_eq_ceil d c hc]
  refine ⟨hlen, fun i hi => ?_⟩
  have hget : (split_audio_into_chunks d c).get ⟨i, hi⟩
      = ((i : ℚ) * c, min c (d - (i : ℚ) * c)) := by
    simp [split_audio_into_chunks]
  have hceil : 0 < ⌈d / c⌉ := Int.ceil_pos.mpr (by positivity)
  have hidx : (i : ℤ) < ⌈d / c⌉ := by
    rw [hlen] at hi
    omega
  have hic : (i : ℚ) * c < d := by
    have h5 := Int.lt_ceil.mp hidx
    push_cast at h5
    calc (i : ℚ) * c < (d / c) * c := mul_lt_mul_of_pos_right h5 hc
    _ = d := by field_simp
  refine ⟨hget, min_le_left _ _, lt_min hc (by linarith), fun hi1 => ?_⟩
  have hidx1 : ((i : ℤ) + 1) < ⌈d / c⌉ := by
    rw [hlen] at hi1
    omega
  have h6 : ((i : ℚ) + 1) * c < d := by
    have h7 := Int.lt_ceil.mp hidx1
    push_cast at h7
    calc ((i : ℚ) + 1) * c < (d / c) * c := mul_lt_mul_of_pos_right h7 hc
    _ = d := by field_simp
  apply min_eq_left
  nlinarith

/-- Witness for C9: a 130-second audio with 60-second chunks yields
exactly 3 chunks. -/
theorem split_audio_into_chunks_spec_witness :
    (0 : ℚ) < 130 ∧ (0 : ℚ) < 60 ∧ (split_audio_into_chunks 130 60).length = 3 := by
  refine ⟨by norm_num, by norm_num, ?_⟩
  rw [(split_audio_into_chunks_spec 130 60 (by norm_num) (by norm_num)).1]
  rw [show ⌈(130 : ℚ) / 60⌉ = 3 from by rw [Int.ceil_eq_iff]; norm_num]
  rfl

/-! ### Claim C4 -/

theorem collectTranscripts_eq_filterMap (tr : Nat → Except String (List Nat))
    (chunks : List Nat) :
    collectTranscripts tr chunks = (chunks.map tr).filterMap Except.toOption := by
  induction chunks with
  | nil => rfl
  | cons c cs ih =>
    rw [collectTranscripts]
    rcases h : tr c with e | t <;>
      simp [List.filterMap_cons, h, Except.toOption, ih]

theorem dropWhile_cons_false {p : Nat → Bool} {a : Nat} {l : List Nat}
    (h : List.dropWhile p (a :: l) = a :: l) : p a = false := by
  by_contra hcontra
  rw [Bool.not_eq_false] at hcontra
  rw [List.dropWhile_cons, if_pos (by simp [hcontra])] at h
  have h1 := congrArg List.length h
  have h2 := (List.dropWhile_sublist (l := l) p).length_le
  simp at h1
  omega

theorem pyStrip_head_tail {t : List Nat} (h : pyStrip t = t) (hne : t ≠ []) :
    (∃ a s, t = a :: s ∧ isPySpace a = false) ∧
    (∃ b r, t.reverse = b :: r ∧ isPySpace b = false) := by
  have hsub1 : (t.dropWhile isPySpace).length ≤ t.length :=
    (List.dropWhile_sublist isPySpace).length_le
  have hsub2 : ((t.dropWhile isPySpace).reverse.dropWhile isPySpace).length
      ≤ (t.dropWhile isPySpace).length := by
    have := (List.dropWhile_sublist (l := (t.dropWhile isPySpace).reverse)
      isPySpace).length_le
    simpa using this
  have hlenstrip : (pyStrip t).length
      = ((t.dropWhile isPySpace).reverse.dropWhile isPySpace).length := by
    rw [pyStrip, List.length_reverse]
  have hlen : (pyStrip t).length = t.length := by rw [h]
  have hdw : t.dropWhile isPySpace = t :=
    (List.dropWhile_sublist isPySpace).eq_of_length (by omega)
  have hdwrev : t.reverse.dropWhile isPySpace = t.reverse := by
    have h2 : pyStrip t = (t.reverse.dropWhile isPySpace).reverse := by
      rw [pyStrip, hdw]
    rw [h] at h2
    conv_rhs => rw [h2]
    rw [List.reverse_reverse]
  constructor
  · rcases t with _ | ⟨a, s⟩
    · exact absurd rfl hne
    · exact ⟨a, s, rfl, dropWhile_cons_false hdw⟩
  · rcases hrev : t.reverse with _ | ⟨b, r⟩
    · rw [List.reverse_eq_nil_iff] at hrev
      exact absurd hrev hne
    · rw [hrev] at hdwrev
      exact ⟨b, r, rfl, dropWhile_cons_false hdwrev⟩

theorem pyStrip_of_ends {s : List Nat}
    (h1 : ∃ a t, s = a :: t ∧ isPySpace a = false)
    (h2 : ∃ b r, s.reverse = b :: r ∧ isPySpace b = false) : pyStrip s = s := by
  obtain ⟨a, t, rfl, ha⟩ := h1
  obtain ⟨b, r, hrev, hb⟩ := h2
  rw [pyStrip, List.dropWhile_cons, if_neg (by simp [ha]), hrev,
    List.dropWhile_cons, if_neg (by simp [hb]), ← hrev, List.reverse_reverse]

/-- C4 (amended): `transcribe_long_audio` always returns — no exception
escapes — the stripped space-join of the transcripts of exactly the
chunks whose transcription succeeded, in chunk order (possibly the empty
string); and for 3 chunks where chunk 2 raises and chunks 1 and 3
succeed with nonempty already-stripped transcripts, the result equals
chunk1-text ++ " " ++ chunk3-text (with an empty chunk-1 transcript the
final strip also removes the leading separator, which is the amendment
the counterexample forces). -/
theorem transcribe_long_audio_spec (chunks : List Nat)
    (tr : Nat → Except String (List Nat)) :
    transcribe_long_audio chunks tr
      = pyStrip (spaceJoin ((chunks.map tr).filterMap Except.toOption)) ∧
    (∀ c1 c2 c3 t1 t3 e, chunks = [c1, c2, c3] →
      tr c1 = .ok t1 → tr c2 = .error e → tr c3 = .ok t3 →
      pyStrip t1 = t1 → t1 ≠ [] → pyStrip t3 = t3 → t3 ≠ [] →
      transcribe_long_audio chunks tr = t1 ++ 32 :: t3) := by
  constructor
  · rw [transcribe_long_audio, collectTranscripts_eq_filterMap]
  · rintro c1 c2 c3 t1 t3 e rfl h1 h2 h3 hs1 hn1 hs3 hn3
    have hcollect : collectTranscripts tr [c1, c2, c3] = [t1, t3] := by
      rw [collectTranscripts, h1, collectTranscripts, h2, collectTranscripts, h3,
        collectTranscripts]
    have hjoin : spaceJoin [t1, t3] = t1 ++ 32 :: t3 := rfl
    rw [transcribe_long_audio, hcollect, hjoin]
    obtain ⟨he1, -⟩ := pyStrip_head_tail hs1 hn1
    obtain ⟨-, he3⟩ := pyStrip_head_tail hs3 hn3
    apply pyStrip_of_ends
    · obtain ⟨a, s, rfl, ha⟩ := he1
      exact ⟨a, s ++ 32 :: t3, by simp, ha⟩
    · obtain ⟨b, r, hrev, hb⟩ := he3
      refine ⟨b, r ++ 32 :: t1.reverse, ?_, hb⟩
      rw [List.reverse_append, List.reverse_cons, hrev]
      simp

/-- Transcription oracle for the C4 counterexample: chunk 1 succeeds
with the empty transcript, chunk 2 raises, chunk 3 succeeds with "x". -/
def c4Tr : Nat → Except String (List Nat) := fun n =>
  if n = 1 then .ok [] else if n = 3 then .ok [120] else .error "Speech-to-Text error: 503"

/-- Counterexample to C4 as stated: with transcripts "" (chunk 1,
succeeded), raise (chunk 2) and "x" (chunk 3), the function returns "x",
not the claimed chunk1-text + " " + chunk3-text = " x" — the final strip
removes the leading separator. -/
theorem transcribe_long_audio_counterexample :
    c4Tr 1 = .ok [] ∧ c4Tr 2 = .error "Speech-to-Text error: 503" ∧ c4Tr 3 = .ok [120] ∧
    transcribe_long_audio [1, 2, 3] c4Tr = [120] ∧
    transcribe_long_audio [1, 2, 3] c4Tr ≠ [] ++ 32 :: [120] := by
  refine ⟨rfl, rfl, rfl, rfl, by decide⟩

/-- Transcription oracle for the C4 witness: chunks 7 and 9 succeed with
"h" and "w", chunk 8 raises. -/
def c4wTr : Nat → Except String (List Nat) := fun n =>
  if n = 7 then .ok [104] else if n = 9 then .ok [119] else .error "e"

/-- Witness for C4 (amended), at three concrete chunks whose middle
transcription fails. -/
theorem transcribe_long_audio_spec_witness :
    transcribe_long_audio [7, 8, 9] c4wTr = [104] ++ 32 :: [119] :=
  (transcribe_long_audio_spec [7, 8, 9] c4wTr).2 7 8 9 [104] [119] "e" rfl rfl rfl rfl
    rfl (by decide) rfl (by decide)

/-! ### Claim C6 -/

/-- C6: `get_next_job` selects among rows with status pending and
attempts below the maximum the one with the least creation time,
transitions exactly that row to processing with its started timestamp
set, and returns it; when no row is eligible it returns none and leaves
every row unchanged. -/
theorem get_next_job_spec (cfg : WorkerConfig) (now : Int) (jobs : List EnrichmentJob) :
    (∀ jobs2, get_next_job cfg now jobs = (none, jobs2) →
      jobs2 = jobs ∧
      ∀ j ∈ jobs, ¬(j.status = JobStatus.pending ∧ j.attempts < cfg.maxRetryAttempts)) ∧
    (∀ j2 jobs2, get_next_job cfg now jobs = (some j2, jobs2) →
      ∃ j, j ∈ jobs ∧ j.status = JobStatus.pending ∧ j.attempts < cfg.maxRetryAttempts ∧
        (∀ k ∈ jobs, k.status = JobStatus.pending → k.attempts < cfg.maxRetryAttempts →
          j.createdAt ≤ k.createdAt) ∧
        j2 = setProcessing now j ∧
        j2.status = JobStatus.processing ∧ j2.startedAt = some now ∧ j2.id = j.id ∧
        (∀ i : Nat, jobs2[i]? = (jobs[i]?).map fun k =>
          if k.id = j.id then setProcessing now k else k)) := by
  rcases hsel : selectNextJob cfg [] jobs with _ | j
  · refine ⟨fun jobs2 h => ?_, fun j2 jobs2 h => ?_⟩
    · rw [get_next_job, hsel] at h
      simp only [Prod.mk.injEq] at h
      obtain ⟨-, rfl⟩ := h
      refine ⟨rfl, fun j hj hcontra => ?_⟩
      rw [selectNextJob, List.argmin_eq_none, List.filter_eq_nil_iff] at hsel
      have := hsel j hj
      simp [jobClaimable, jobEligible] at this
      exact absurd (this hcontra.1) (by omega)
    · rw [get_next_job, hsel] at h
      exact absurd h (by simp)
  · have hjmem : j ∈ (jobs.filter (jobClaimable cfg [])).argmin EnrichmentJob.createdAt := by
      rw [Option.mem_def]
      exact hsel
    have hmem := List.argmin_mem hjmem
    rw [List.mem_filter] at hmem
    obtain ⟨hjin, hjcl⟩ := hmem
    have hjel : j.status = JobStatus.pending ∧ j.attempts < cfg.maxRetryAttempts := by
      simp [jobClaimable, jobEligible] at hjcl
      exact hjcl
    refine ⟨fun jobs2 h => ?_, fun j2 jobs2 h => ?_⟩
    · rw [get_next_job, hsel] at h
      exact absurd h (by simp)
    · rw [get_next_job, hsel] at h
      simp only [Prod.mk.injEq, Option.some.injEq] at h
      obtain ⟨rfl, rfl⟩ := h
      refine ⟨j, hjin, hjel.1, hjel.2, fun k hk hk1 hk2 => ?_, rfl, rfl, rfl, rfl,
        fun i => ?_⟩
      · apply List.le_of_mem_argmin _ hjmem
        rw [List.mem_filter]
        exact ⟨hk, by simp [jobClaimable, jobEligible, hk1, hk2]⟩
      · rw [updateJob, List.getElem?_map]

/-- Configuration for the C6 witness (the source defaults). -/
def c6cfg : WorkerConfig := ⟨3, [5, 10, 20]⟩

/-- A concrete pending job for the C6 witness. -/
def c6job : EnrichmentJob :=
  ⟨4, 9, "instagram_posts", 0, JobStatus.pending, 0, none, none, none⟩

/-- Witness for C6 at a one-job store: the pending job is claimed,
transitioned to processing with its started timestamp set. -/
theorem get_next_job_spec_witness :
    ∃ j, j ∈ [c6job] ∧ j.status = JobStatus.pending ∧
      j.attempts < c6cfg.maxRetryAttempts ∧
      (∀ k ∈ [c6job], k.status = JobStatus.pending →
        k.attempts < c6cfg.maxRetryAttempts → j.createdAt ≤ k.createdAt) ∧
      setProcessing 7 c6job = setProcessing 7 j ∧
      (setProcessing 7 c6job).status = JobStatus.processing ∧
      (setProcessing 7 c6job).startedAt = some 7 ∧
      (setProcessing 7 c6job).id = j.id ∧
      (∀ i : Nat, [setProcessing 7 c6job][i]? = ([c6job][i]?).map fun k =>
        if k.id = j.id then setProcessing 7 k else k) :=
  (get_next_job_spec c6cfg 7 [c6job]).2 (setProcessing 7 c6job) [setProcessing 7 c6job] rfl

/-! ### Claim C3 -/

/-- Configuration for the C3 failing input (the source defaults). -/
def c3cfg : WorkerConfig := ⟨3, [5, 10, 20]⟩

/-- The C3 failing input: a pending job created at minute 0 with 0
attempts. -/
def c3job : EnrichmentJob :=
  ⟨4, 9, "instagram_posts", 0, JobStatus.pending, 0, none, none, none⟩

/-- C3 at its failing input: `mark_job_failed` performs the bookkeeping
the claim describes — status back to pending, attempts 1, created_at
advanced to NOW() + backoff[0] = minute 5 — but the claimed eligibility
delay is not enforced: `get_next_job`'s WHERE clause never compares
created_at with the clock, so the very next claim, still at minute 0,
returns the job (started at minute 0, 5 minutes before
created_at + backoff would allow). -/
theorem mark_job_failed_backoff_not_gating :
    (mark_job_failed c3cfg 4 "network timeout" 0 0 [c3job]).map
        (fun j => (j.status, j.attempts, j.createdAt))
      = [(JobStatus.pending, 1, 5)] ∧
    ((get_next_job c3cfg 0 (mark_job_failed c3cfg 4 "network timeout" 0 0 [c3job])).1).map
        EnrichmentJob.id = some 4 ∧
    ((get_next_job c3cfg 0 (mark_job_failed c3cfg 4 "network timeout" 0 0 [c3job])).1).map
        EnrichmentJob.startedAt = some (some 0) := by
  refine ⟨rfl, rfl, rfl⟩

/-! ### Claim C5 -/

theorem setProcessing_id (t : Int) (j : EnrichmentJob) : (setProcessing t j).id = j.id := rfl

theorem setProcessing_status (t : Int) (j : EnrichmentJob) :
    (setProcessing t j).status = JobStatus.processing := rfl

theorem updateJob_map_id (jobs : List EnrichmentJob) (jid : Nat) (t : Int) :
    (updateJob jobs jid (setProcessing t)).map EnrichmentJob.id
      = jobs.map EnrichmentJob.id := by
  rw [updateJob, List.map_map]
  apply List.map_congr_left
  intro j _
  by_cases h : j.id = jid <;> simp [h, setProcessing]

theorem mem_updateJob_of_ne {jobs : List EnrichmentJob} {jid : Nat}
    {f : EnrichmentJob → EnrichmentJob} {j : EnrichmentJob}
    (hj : j ∈ jobs) (hne : j.id ≠ jid) : j ∈ updateJob jobs jid f := by
  rw [updateJob]
  exact List.mem_map.mpr ⟨j, hj, by simp [hne]⟩

theorem mem_updateJob {jobs : List EnrichmentJob} {jid : Nat}
    {f : EnrichmentJob → EnrichmentJob} {j : EnrichmentJob}
    (hj : j ∈ updateJob jobs jid f) :
    ∃ j0 ∈ jobs, j = if j0.id = jid then f j0 else j0 := by
  rw [updateJob] at hj
  obtain ⟨j0, h0, heq⟩ := List.mem_map.mp hj
  exact ⟨j0, h0, heq.symm⟩

/-- Any single interleaved claiming step preserves queue
well-formedness: a `select` locks only an unlocked pending row (rows
locked by a concurrent claimer are skipped), and a `commit` publishes
the claimed row as processing, where it can never be re-claimed. -/
theorem queueInv_step {cfg : WorkerConfig} {st st2 : QueueState}
    (hInv : QueueInv st) (h : ClaimStep cfg st st2) : QueueInv st2 := by
  obtain ⟨hids, hlnd, hlp, hcp, hcnd⟩ := hInv
  cases h with
  | select w j hw hsel =>
    have hjmem : j ∈ (st.jobs.filter
        (jobClaimable cfg (st.locks.map Prod.snd))).argmin EnrichmentJob.createdAt :=
      Option.mem_def.mpr hsel
    have hmem := List.argmin_mem hjmem
    rw [List.mem_filter] at hmem
    obtain ⟨hjin, hjcl⟩ := hmem
    simp [jobClaimable, jobEligible] at hjcl
    refine ⟨hids, ?_, ?_, hcp, hcnd⟩
    · simp only [List.map_cons]
      refine List.nodup_cons.mpr ⟨?_, hlnd⟩
      intro hcontra
      obtain ⟨p, hp, hpsnd⟩ := List.mem_map.mp hcontra
      have hpeq : (p.1, j.id) = p := by
        obtain ⟨p1, p2⟩ := p
        simp only at hpsnd
        rw [hpsnd]
      exact hjcl.2 p.1 (hpeq ▸ hp)
    · intro p hp
      rcases List.mem_cons.mp hp with rfl | hp2
      · exact ⟨j, hjin, rfl, hjcl.1.1⟩
      · exact hlp p hp2
  | commit w jid t hmem =>
    obtain ⟨jp, hjpin, hjpid, hjppend⟩ := hlp (w, jid) hmem
    have hlocksnd : st.locks.Nodup := hlnd.of_map
    refine ⟨?_, ?_, ?_, ?_, ?_⟩
    · simpa only [updateJob_map_id] using hids
    · exact hlnd.sublist (List.Sublist.map _ (List.erase_sublist _ _))
    · intro p hp
      have hpin : p ∈ st.locks := List.mem_of_mem_erase hp
      have hpne : p ≠ (w, jid) := ((hlocksnd.mem_erase_iff).mp hp).1
      have hpsnd : p.2 ≠ jid := by
        intro hcontra
        exact hpne (List.inj_on_of_nodup_map hlnd hpin hmem (by simp [hcontra]))
      obtain ⟨j2, hj2in, hj2id, hj2p⟩ := hlp p hpin
      exact ⟨j2, mem_updateJob_of_ne hj2in (by omega), hj2id, hj2p⟩
    · intro p hp j hj hjid
      obtain ⟨j0, hj0in, hj0eq⟩ := mem_updateJob hj
      by_cases h0 : j0.id = jid
      · rw [if_pos h0] at hj0eq
        rw [hj0eq]
        rfl
      · rw [if_neg h0] at hj0eq
        subst hj0eq
        rcases List.mem_cons.mp hp with rfl | hp2
        · exact absurd hjid h0
        · exact hcp p hp2 j hj0in hjid
    · simp only [List.map_cons]
      refine List.nodup_cons.mpr ⟨?_, hcnd⟩
      intro hcontra
      obtain ⟨p2, hp2in, hp2snd⟩ := List.mem_map.mp hcontra
      have := hcp p2 hp2in jp hjpin (by omega)
      rw [hjppend] at this
      exact absurd this (by simp)

/-- C5: from any well-formed queue state, along any interleaving of
claim phases by any number of concurrent workers, the claims returned
carry pairwise distinct job ids — no job is ever returned to two
callers or held in processing by two workers — and no row is ever
locked by two claimers at once (a locked row is skipped, not
double-claimed). -/
theorem claim_next_job_exclusive (cfg : WorkerConfig) (st st2 : QueueState)
    (hInv : QueueInv st)
    (h : Relation.ReflTransGen (ClaimStep cfg) st st2) :
    QueueInv st2 ∧ (st2.claimed.map Prod.snd).Nodup ∧
      (st2.locks.map Prod.snd).Nodup := by
  induction h with
  | refl => exact ⟨hInv, hInv.2.2.2.2, hInv.2.1⟩
  | tail hstar hstep ih =>
    have h2 := queueInv_step ih.1 hstep
    exact ⟨h2, h2.2.2.2.2, h2.2.1⟩

/-- Configuration for the C5 witness. -/
def c5cfg : WorkerConfig := ⟨3, [5, 10, 20]⟩

/-- C5 witness job claimed second (younger, created at minute 10). -/
def c5jobA : EnrichmentJob :=
  ⟨3, 30, "instagram_posts", 0, JobStatus.pending, 10, none, none, none⟩

/-- C5 witness job claimed first (older, created at minute 2). -/
def c5jobB : EnrichmentJob :=
  ⟨6, 60, "instagram_posts", 0, JobStatus.pending, 2, none, none, none⟩

/-- Initial queue state for the C5 witness: two pending jobs, no locks,
no claims. -/
def c5st0 : QueueState := ⟨[c5jobA, c5jobB], [], []⟩

/-- Final queue state for the C5 witness: worker 1 selected and
committed the older job 6; worker 2, selecting while job 6 was locked,
skipped it and locked job 3. -/
def c5final : QueueState :=
  ⟨updateJob [c5jobA, c5jobB] 6 (setProcessing 9), [(2, 3)], [(1, 6)]⟩

/-- Witness for C5: a concrete interleaving of two workers — select by
worker 1 (takes the older job 6), select by worker 2 (skips the locked
job 6, takes job 3), commit by worker 1 — ends well-formed with
pairwise-distinct claimed and locked jobs. -/
theorem claim_next_job_exclusive_witness :
    QueueInv c5final ∧ (c5final.claimed.map Prod.snd).Nodup ∧
      (c5final.locks.map Prod.snd).Nodup :=
  claim_next_job_exclusive c5cfg c5st0 c5final (by decide)
    (Relation.ReflTransGen.tail
      (Relation.ReflTransGen.tail
        (Relation.ReflTransGen.single
          (ClaimStep.select c5st0 1 c5jobB (by decide) (by decide)))
        (ClaimStep.select ⟨[c5jobA, c5jobB], [(1, 6)], []⟩ 2 c5jobA (by decide) (by decide)))
      (ClaimStep.commit ⟨[c5jobA, c5jobB], [(2, 3), (1, 6)], []⟩ 1 6 9 (by decide)))

/-! ### Claim C8 -/

/-- C8 (amended): for a CAROUSEL_ALBUM post the representative URL comes
from the first child in stable order — the child's thumbnail URL when
the child is a video whose thumbnail URL is truthy (present and
non-empty), and the child's media URL otherwise, including for a video
child whose thumbnail URL is missing or empty (the amendment the
counterexample forces, from the source's `A and B or C` idiom); and a
carousel with no children resolves no URL, upon which `process_job`
marks the job completed and writes no embedding (not a failure). -/
theorem carousel_primary_media_spec (post : ContentPost)
    (hpost : post.mediaType = "CAROUSEL_ALBUM") :
    (post.children.head? = none → get_primary_media_url post = none) ∧
    (∀ ch, post.children.head? = some ch → ch.mediaType = "VIDEO" →
      pyTruthyStr ch.thumbnailUrl = true →
      get_primary_media_url post = ch.thumbnailUrl) ∧
    (∀ ch, post.children.head? = some ch →
      ¬(ch.mediaType = "VIDEO" ∧ pyTruthyStr ch.thumbnailUrl = true) →
      get_primary_media_url post = ch.mediaUrl) ∧
    (∀ cfg env job w, post.children = [] → env.fetchContent = .ok post →
      env.markCompletedErr = none →
      (process_job cfg env job w).1.embeddings = w.embeddings ∧
      (process_job cfg env job w).1.jobs = mark_job_completed job.id env.now w.jobs ∧
      (process_job cfg env job w).2 = Except.ok ()) := by
  have hbase : get_primary_media_url post =
      match post.children.head? with
      | some child =>
        if child.mediaType = "VIDEO" && pyTruthyStr child.thumbnailUrl then
          child.thumbnailUrl
        else child.mediaUrl
      | none => none := by
    rw [get_primary_media_url, hpost]
    rw [if_neg (by decide), if_neg (by decide), if_pos (by decide)]
  have h1 : post.children.head? = none → get_primary_media_url post = none := by
    intro hch
    rw [hbase, hch]
  refine ⟨h1, fun ch hch hv ht => ?_, fun ch hch hn => ?_,
    fun cfg env job w hch hfetch hmark => ?_⟩
  · rw [hbase, hch]
    dsimp only
    rw [if_pos (by simp [hv, ht])]
  · rw [hbase, hch]
    dsimp only
    rw [if_neg ?hcond]
    case hcond =>
      intro hcontra
      simp only [Bool.and_eq_true, decide_eq_true_eq] at hcontra
      exact hn ⟨hcontra.1, hcontra.2⟩
  · have hurl : get_primary_media_url post = none := h1 (by rw [hch]; rfl)
    have hbody : processJobBody env job w =
        (({ w with jobs := mark_job_completed job.id env.now w.jobs }, none, none, []),
          Except.ok ()) := by
      rw [processJobBody, hfetch]
      dsimp only
      rw [if_neg (by rw [hpost]; decide), if_neg (by rw [hpost]; decide),
        if_pos hpost, if_pos (by rw [hurl]; rfl)]
      rw [mark_job_completed_op, hmark]
    rw [process_job, hbody]
    exact ⟨rfl, rfl, rfl⟩

/-- The C8 counterexample post: a carousel whose only child is a VIDEO
with a NULL thumbnail URL and media URL "m". -/
def c8post : ContentPost :=
  ⟨11, none, "CAROUSEL_ALBUM", none, none, [⟨some "m", none, "VIDEO"⟩]⟩

/-- Counterexample to C8 as stated: the first child is a video, so the
claim says its thumbnail URL is used; but the thumbnail URL is NULL and
the source's `child[2] == 'VIDEO' and child[1] or child[0]` falls
through to the child's media URL "m" instead. -/
theorem get_primary_media_url_counterexample :
    c8post.mediaType = "CAROUSEL_ALBUM" ∧
    (∃ ch, c8post.children.head? = some ch ∧ ch.mediaType = "VIDEO" ∧
      ch.thumbnailUrl = none ∧ ch.mediaUrl = some "m") ∧
    get_primary_media_url c8post = some "m" ∧
    ∀ ch, c8post.children.head? = some ch →
      get_primary_media_url c8post ≠ ch.thumbnailUrl := by
  refine ⟨rfl, ⟨⟨some "m", none, "VIDEO"⟩, rfl, rfl, rfl, rfl⟩, rfl, ?_⟩
  intro ch hch
  obtain rfl : ch = ⟨some "m", none, "VIDEO"⟩ := by injection hch; simp_all
  decide

/-- The C8 witness post: a carousel with no children. -/
def c8wpost : ContentPost := ⟨11, none, "CAROUSEL_ALBUM", none, none, []⟩

/-- The C8 witness job (already claimed, hence processing). -/
def c8wjob : EnrichmentJob :=
  ⟨1, 11, "instagram_posts", 0, JobStatus.processing, 0, some 0, none, none⟩

/-- The C8 witness environment: the content fetch returns the childless
carousel and the completion UPDATE succeeds. -/
def c8wenv : JobEnv :=
  ⟨0, .ok c8wpost, none, .noAudio, .ok [], .ok 0, fun _ => .ok [], .ok [], none, none,
    none, none⟩

/-- Configuration for the C8 witness. -/
def c8wcfg : WorkerConfig := ⟨3, [5, 10, 20]⟩

/-- Initial world for the C8 witness. -/
def c8ww : WorldState := ⟨[], 0, [c8wjob], [], []⟩

/-- Witness for C8 (amended): processing a childless carousel job marks
it completed, writes no embedding, and raises nothing. -/
theorem carousel_primary_media_spec_witness :
    (process_job c8wcfg c8wenv c8wjob c8ww).1.embeddings = c8ww.embeddings ∧
    (process_job c8wcfg c8wenv c8wjob c8ww).1.jobs
      = mark_job_completed c8wjob.id c8wenv.now c8ww.jobs ∧
    (process_job c8wcfg c8wenv c8wjob c8ww).2 = Except.ok () :=
  (carousel_primary_media_spec c8wpost rfl).2.2.2 c8wcfg c8wenv c8wjob c8ww rfl rfl rfl

/-! ### Claim C7 -/

theorem cleanup_temp_files_files (ps : List Nat) (w : WorldState) :
    (cleanup_temp_files w ps).files = ps.foldl List.erase w.files := by
  induction ps generalizing w with
  | nil => rfl
  | cons p ps ih =>
    rw [cleanup_temp_files, List.foldl_cons]
    exact ih (rmTemp w p)

theorem erase_append_singleton {fs : List Nat} {n : Nat} (h : n ∉ fs) :
    (fs ++ [n]).erase n = fs := by
  rw [List.erase_append_right _ h, List.erase_cons_head, List.append_nil]

theorem foldl_erase_append (names fs : List Nat) (h : ∀ n ∈ names, n ∉ fs)
    (hnd : names.Nodup) : names.foldl List.erase (fs ++ names) = fs := by
  induction names generalizing fs with
  | nil => rw [List.append_nil, List.foldl_nil]
  | cons n ns ih =>
    rw [List.foldl_cons]
    have h1 : (fs ++ n :: ns).erase n = fs ++ ns := by
      rw [List.erase_append_right _ (h n (by simp)), List.erase_cons_head]
    rw [h1]
    exact ih fs (fun x hx => h x (by simp [hx])) (List.nodup_cons.mp hnd).2

theorem store_transcript_files (env : JobEnv) (cid : Nat) (t : Option (List Nat))
    (b : Bool) (w : WorldState) : (store_transcript env cid t b w).1.files = w.files := by
  rw [store_transcript]
  cases env.storeTranscriptErr <;> rfl

theorem mark_job_completed_op_files (env : JobEnv) (jid : Nat) (w : WorldState) :
    (mark_job_completed_op env jid w).1.files = w.files := by
  rw [mark_job_completed_op]
  cases env.markCompletedErr <;> rfl

theorem embedAndComplete_files (env : JobEnv) (job : EnrichmentJob) (w : WorldState) :
    (embedAndComplete env job w).1.files = w.files := by
  rw [embedAndComplete]
  cases env.embedOutcome with
  | error e => rfl
  | ok v =>
    dsimp only
    rw [store_embedding]
    cases env.storeEmbeddingErr with
    | none =>
      dsimp only
      exact mark_job_completed_op_files env job.id _
    | some e => rfl

theorem process_video_fs (env : JobEnv) (w : WorldState) (hInv : WorldInv w) :
    (∃ e w1, process_video_for_transcription env w = (w1, .error e) ∧
      w1.files = w.files) ∨
    (∃ w1 vd, process_video_for_transcription env w = (w1, .ok vd) ∧
      w1.files = w.files ++ (vd.videoPath :: vd.audioPath.toList) ∧
      w1.nextTemp = w.nextTemp + 2 ∧
      (vd.videoPath :: vd.audioPath.toList).Nodup ∧
      (∀ n ∈ vd.videoPath :: vd.audioPath.toList,
        w.nextTemp ≤ n ∧ n < w.nextTemp + 2)) := by
  have hfresh0 : w.nextTemp ∉ w.files := fun hmem => by have := hInv _ hmem; omega
  have hfresh1 : w.nextTemp + 1 ∉ w.files := fun hmem => by have := hInv _ hmem; omega
  rw [process_video_for_transcription, mkTemp]
  cases env.downloadErr with
  | some e =>
    refine Or.inl ⟨_, _, rfl, ?_⟩
    rw [rmTemp]
    exact erase_append_singleton hfresh0
  | none =>
    dsimp only
    rw [mkTemp]
    cases env.extract with
    | err e =>
      refine Or.inl ⟨_, _, rfl, ?_⟩
      rw [rmTemp, rmTemp]
      dsimp only
      rw [List.erase_append_left _ (show w.nextTemp ∈ w.files ++ [w.nextTemp] by simp),
        erase_append_singleton hfresh0, erase_append_singleton hfresh1]
    | noAudio =>
      refine Or.inr ⟨_, _, rfl, ?_, rfl, by simp, ?_⟩
      · rw [rmTemp]
        dsimp only
        rw [List.erase_append_right _ (show w.nextTemp + 1 ∉ w.files ++ [w.nextTemp] by
          intro hmem
          rcases List.mem_append.mp hmem with hmem | hmem
          · exact hfresh1 hmem
          · simp at hmem),
          List.erase_cons_head, List.append_nil]
        rfl
      · intro n hn
        simp only [Option.toList_none, List.mem_singleton] at hn
        subst hn
        omega
    | ok dur =>
      refine Or.inr ⟨_, _, rfl, ?_, rfl, ?_, ?_⟩
      · dsimp only
        rw [List.append_assoc]
        rfl
      · simp
      · intro n hn
        simp only [Option.toList_some, List.mem_cons, List.mem_singleton] at hn
        rcases hn with rfl | rfl | h
        · omega
        · omega
        · exact absurd h (List.not_mem_nil n)

theorem split_fs (env : JobEnv) (w : WorldState) (hInv : WorldInv w) :
    (∃ e w1, split_audio_into_chunks_fs env w = (w1, .error e) ∧ w1.files = w.files) ∨
    (∃ w1 paths, split_audio_into_chunks_fs env w = (w1, .ok paths) ∧
      w1.files = w.files ++ paths ∧ paths.Nodup ∧ ∀ n ∈ paths, w.nextTemp ≤ n) := by
  rw [split_audio_into_chunks_fs]
  cases env.split with
  | ok k =>
    refine Or.inr ⟨_, _, rfl, rfl, ?_, ?_⟩
    · exact (List.nodup_range k).map (fun a b hab => by omega)
    · intro n hn
      obtain ⟨i, hi, rfl⟩ := List.mem_map.mp hn
      omega
  | err created msg =>
    refine Or.inl ⟨_, _, rfl, ?_⟩
    dsimp only
    rw [cleanup_temp_files_files]
    apply foldl_erase_append
    · intro n hn hmem
      obtain ⟨i, hi, rfl⟩ := List.mem_map.mp hn
      have := hInv _ hmem
      omega
    · exact (List.nodup_range created).map (fun a b hab => by omega)

theorem transcriptionStep_files (env : JobEnv) (vd : VideoData) (w1 : WorldState)
    (hInv : WorldInv w1) :
    ∃ w2 chunks transcript, transcriptionStep env vd w1 = (w2, chunks, transcript) ∧
      w2.files = w1.files ++ chunks ∧ chunks.Nodup ∧ ∀ n ∈ chunks, w1.nextTemp ≤ n := by
  rw [transcriptionStep]
  by_cases ha : vd.hasAudio
  · rw [if_pos ha]
    by_cases hd : vd.durationSeconds ≤ 60
    · rw [if_pos hd]
      cases env.transcribeShort with
      | ok t => exact ⟨w1, [], some t, rfl, by simp, by simp, by simp⟩
      | error e => exact ⟨w1, [], none, rfl, by simp, by simp, by simp⟩
    · rw [if_neg hd]
      rcases split_fs env w1 hInv with ⟨e, w2, hsp, hfiles⟩ |
        ⟨w2, paths, hsp, hfiles, hnd, hge⟩
      · rw [hsp]
        exact ⟨w2, [], none, rfl, by simp [hfiles], by simp, by simp⟩
      · rw [hsp]
        exact ⟨w2, paths, _, rfl, hfiles, hnd, hge⟩
  · rw [if_neg ha]
    exact ⟨w1, [], none, rfl, by simp, by simp, by simp⟩


theorem processJobBody_files (env : JobEnv) (job : EnrichmentJob) (w0 : WorldState)
    (hInv : WorldInv w0) :
    ∃ w1 vp ap chunks res, processJobBody env job w0 = ((w1, vp, ap, chunks), res) ∧
      w1.files = w0.files ++ (vp.toList ++ ap.toList ++ chunks) ∧
      (vp.toList ++ ap.toList ++ chunks).Nodup ∧
      (∀ n ∈ vp.toList ++ ap.toList ++ chunks, n ∉ w0.files) := by
  rw [processJobBody]
  cases env.fetchContent with
  | error e => exact ⟨w0, none, none, [], .error e, rfl, by simp, by simp, by simp⟩
  | ok post =>
    dsimp only
    by_cases hv : post.mediaType = "VIDEO"
    · rw [if_pos hv]
      rcases process_video_fs env w0 hInv with ⟨e, w1, hpv, hfiles⟩ |
        ⟨w1, vd, hpv, hfiles, hnt, hnd, hbound⟩
      · rw [hpv]
        exact ⟨w1, none, none, [], .error e, rfl, by simp [hfiles], by simp, by simp⟩
      · rw [hpv]
        dsimp only
        have hInv1 : WorldInv w1 := by
          intro p hp
          rw [hfiles] at hp
          rcases List.mem_append.mp hp with hp | hp
          · have := hInv _ hp
            omega
          · have := (hbound _ hp).2
            omega
        obtain ⟨w2, chunks, transcript, htri, hfiles2, hnd2, hge2⟩ :=
          transcriptionStep_files env vd w1 hInv1
        rw [htri]
        dsimp only
        have htracked : w2.files
            = w0.files ++ ((vd.videoPath :: vd.audioPath.toList) ++ chunks) := by
          rw [hfiles2, hfiles, List.append_assoc]
        have hndall : ((vd.videoPath :: vd.audioPath.toList) ++ chunks).Nodup := by
          refine hnd.append hnd2 ?_
          intro a ha hb
          have h1 := (hbound _ ha).2
          have h2 := hge2 _ hb
          omega
        have hfreshall : ∀ n ∈ (vd.videoPath :: vd.audioPath.toList) ++ chunks,
            n ∉ w0.files := by
          intro n hn hmem
          have := hInv _ hmem
          rcases List.mem_append.mp hn with hn | hn
          · have := (hbound _ hn).1
            omega
          · have := hge2 _ hn
            omega
        cases hst : env.storeTranscriptErr with
        | some e =>
          rw [store_transcript, hst]
          exact ⟨w2, some vd.videoPath, vd.audioPath, chunks, .error e, rfl,
            htracked, hndall, hfreshall⟩
        | none =>
          rw [store_transcript, hst]
          dsimp only
          refine ⟨(embedAndComplete env job
              { w2 with transcripts := (job.contentId, transcript, vd.hasAudio)
                  :: w2.transcripts }).1,
            some vd.videoPath, vd.audioPath, chunks,
            (embedAndComplete env job
              { w2 with transcripts := (job.contentId, transcript, vd.hasAudio)
                  :: w2.transcripts }).2,
            rfl, ?_, hndall, hfreshall⟩
          rw [embedAndComplete_files]
          exact htracked
    · rw [if_neg hv]
      by_cases hi : post.mediaType = "IMAGE"
      · rw [if_pos hi]
        refine ⟨(embedAndComplete env job w0).1, none, none, [],
          (embedAndComplete env job w0).2, rfl, ?_, by simp, by simp⟩
        rw [embedAndComplete_files]
        simp
      · rw [if_neg hi]
        by_cases hc : post.mediaType = "CAROUSEL_ALBUM"
        · rw [if_pos hc]
          by_cases hurl : pyTruthyStr (get_primary_media_url post) = false
          · rw [if_pos hurl]
            refine ⟨(mark_job_completed_op env job.id w0).1, none, none, [],
              (mark_job_completed_op env job.id w0).2, rfl, ?_, by simp, by simp⟩
            rw [mark_job_completed_op_files]
            simp
          · rw [if_neg hurl]
            refine ⟨(embedAndComplete env job w0).1, none, none, [],
              (embedAndComplete env job w0).2, rfl, ?_, by simp, by simp⟩
            rw [embedAndComplete_files]
            simp
        · rw [if_neg hc]
          exact ⟨w0, none, none, [], .error ("Unsupported media type: " ++ post.mediaType),
            rfl, by simp, by simp, by simp⟩

/-- C7: on every exit path of `process_job` — success, caught failure,
or an exception raised anywhere in fetching, audio extraction, chunking,
transcription, embedding, the store round trips, or even in the
`mark_job_failed` call of the handler — every temporary local file
created for the job (downloaded video, extracted audio, audio chunks)
has been deleted when the function returns: the local file set ends
exactly as it started. -/
theorem process_job_cleanup (cfg : WorkerConfig) (env : JobEnv) (job : EnrichmentJob)
    (w0 : WorldState) (hInv : WorldInv w0) :
    (process_job cfg env job w0).1.files = w0.files := by
  obtain ⟨w1, vp, ap, chunks, res, hbody, hfiles, hnd, hfresh⟩ :=
    processJobBody_files env job w0 hInv
  rw [process_job, hbody]
  dsimp only
  have hclean : ∀ wmid : WorldState, wmid.files = w1.files →
      (cleanup_temp_files wmid (vp.toList ++ ap.toList ++ chunks)).files = w0.files := by
    intro wmid hw
    rw [cleanup_temp_files_files, hw, hfiles]
    exact foldl_erase_append _ _ hfresh hnd
  cases res with
  | ok u => exact hclean w1 rfl
  | error e =>
    dsimp only
    cases env.markFailedErr with
    | some e2 => exact hclean w1 rfl
    | none => exact hclean _ rfl


def c7cfg : WorkerConfig := ⟨3, [5, 10, 20]⟩

def c7job : EnrichmentJob :=
  ⟨2, 21, "instagram_posts", 0, JobStatus.processing, 0, some 0, none, none⟩

def c7post : ContentPost := ⟨21, some [104, 105], "VIDEO", some "v", some "t", []⟩

def c7env : JobEnv :=
  ⟨0, .ok c7post, none, .ok 130, .ok [104], .ok 3, fun _ => .ok [104], .ok [1],
    none, none, none, none⟩

def c7w : WorldState := ⟨[], 0, [c7job], [], []⟩

/-- Witness for C7: a concrete 130-second VIDEO job that downloads,
extracts audio, splits into 3 chunks and embeds leaves no temporary
file behind. -/
theorem process_job_cleanup_witness :
    (process_job c7cfg c7env c7job c7w).1.files = c7w.files :=
  process_job_cleanup c7cfg c7env c7job c7w (by decide)

end Aiviary
